import Mathlib

/-!
Shallow embedding of the wordle-thing constraint solver (`src/main.rs`).

The core of the program is `solve`, which takes a list of observations
(a 5-cell feedback `Guess` paired with the day's 5-letter answer word),
derives per-position character constraints, folds them into a resolved
allowed-character set per position, and filters the dictionary
(`valid_words` chained with `answers`) to the words whose every character
is allowed at its position.  The process-global lazily fetched dictionary
is modelled, as the spec's design notes direct, as an explicit pair of
word lists passed to `solve`.  `main`'s reporting policy over the returned
candidate list is modelled by `report`.
-/

namespace Wordle

/-- The three feedback colors, `enum Cell` in the source. -/
inductive Cell
  | Partial
  | Match
  | Nop
deriving DecidableEq, Repr

/-- `type Guess = [Cell; 5]`: the feedback pattern of one observation. -/
abbrev Guess := Fin 5 → Cell

/-- A 5-letter answer word, as the `[char; 5]` the source builds by
`word.chars().collect::<Vec<_>>().try_into().unwrap()`. -/
abbrev Word := Fin 5 → Char

/-- `enum Constraint`: a per-position allow-set (`IsOneOf`, the spec's
`AllowedSet`) or deny-set (`IsNoneOf`, the spec's `ForbiddenSet`). -/
inductive Constraint
  | IsOneOf (h : Finset Char)
  | IsNoneOf (h : Finset Char)
deriving DecidableEq

/-- The universe the fold starts from: `('a'..='z').collect::<HashSet<_>>()`. -/
def alphabet : Finset Char := (Finset.range 26).image (fun n => Char.ofNat (97 + n))

/-- The constraint the observation `(guess, chars)` contributes at position `i`
(the `match cell` in `solve`):
* `Match` → `IsOneOf {chars[i]}`;
* `Partial` → `IsOneOf` of the answer characters at positions that are not
  `Match` and are not `i` itself;
* `Nop` → `IsNoneOf` of the answer characters at all non-`Match` positions. -/
def constraintFor (guess : Guess) (chars : Word) (i : Fin 5) : Constraint :=
  match guess i with
  | Cell.Match => Constraint.IsOneOf {chars i}
  | Cell.Partial =>
      Constraint.IsOneOf
        ((Finset.univ.filter fun j => guess j ≠ Cell.Match ∧ j ≠ i).image chars)
  | Cell.Nop =>
      Constraint.IsNoneOf
        ((Finset.univ.filter fun j => guess j ≠ Cell.Match).image chars)

/-- One fold step of constraint resolution: `IsOneOf` intersects the running
state space, `IsNoneOf` subtracts from it. -/
def applyConstraint (state_space : Finset Char) : Constraint → Finset Char
  | Constraint.IsOneOf h => state_space ∩ h
  | Constraint.IsNoneOf h => state_space \ h

/-- Folding a position's accumulated constraint list over the full alphabet,
in arrival order (`constraints.iter().fold(('a'..='z')…, …)`). -/
def resolve (cs : List Constraint) : Finset Char :=
  cs.foldl applyConstraint alphabet

/-- The constraint list accumulated at position `i`: one constraint per
observation, pushed in observation order (`constraints[i].push(constraint)`). -/
def positionConstraints (guesses : List (Guess × Word)) (i : Fin 5) : List Constraint :=
  guesses.map fun gw => constraintFor gw.1 gw.2 i

/-- The resolved allowed-character set at position `i`. -/
def resolvedSet (guesses : List (Guess × Word)) (i : Fin 5) : Finset Char :=
  resolve (positionConstraints guesses i)

/-- The anchored five-character-class pattern `^[s0][s1][s2][s3][s4]$` built
from the resolved sets: a word matches exactly when it is five characters
long and each character is a member of its position's set. -/
def wordMatches (allowed : Fin 5 → Finset Char) (w : List Char) : Bool :=
  match w with
  | [c0, c1, c2, c3, c4] =>
      decide (c0 ∈ allowed 0) && decide (c1 ∈ allowed 1) && decide (c2 ∈ allowed 2) &&
        decide (c3 ∈ allowed 3) && decide (c4 ∈ allowed 4)
  | _ => false

/-- The filtered dictionary:
`valid_words.iter().chain(answers.iter()).filter(|w| re.is_match(w))`. -/
def candidates (valid_words answers : List (List Char))
    (guesses : List (Guess × Word)) : List (List Char) :=
  (valid_words ++ answers).filter (wordMatches (resolvedSet guesses))

/-- The `impossible` flag of `solve`: set when some position's resolved
allowed set is empty. -/
def impossible (guesses : List (Guess × Word)) : Bool :=
  decide (∃ i : Fin 5, resolvedSet guesses i = ∅)

/-- The 1-indexed positions `solve` prints `no possible values for letter …`
for: every position whose resolved set is empty.  These go to stdout only;
they are not part of `solve`'s return value. -/
def emptyLetterPositions (guesses : List (Guess × Word)) : List Nat :=
  ((List.finRange 5).filter fun i => decide (resolvedSet guesses i = ∅)).map
    fun i => i.val + 1

/-- `fn solve(guesses: &[(Guess, &str)]) -> Option<Vec<&'static str>>`:
`None` when some position resolved to the empty set, `None` when the filtered
dictionary is empty, `Some` of the filtered dictionary otherwise. -/
def solve (valid_words answers : List (List Char))
    (guesses : List (Guess × Word)) : Option (List (List Char)) :=
  if impossible guesses then none
  else if (candidates valid_words answers guesses).length = 0 then none
  else some (candidates valid_words answers guesses)

/-- The four ways `main` reacts to `solve`'s return value (exit(2) on `None`;
otherwise a message chosen by the candidate count). -/
inductive Outcome
  | impossible
  | unique (w : List Char)
  | ambiguous (ws : List (List Char))
  | tooMany (n : Nat)
deriving DecidableEq

/-- `main`'s reporting policy over `solve`'s result: length 1 → unique,
length ≤ 12 → ambiguous with the full list, otherwise only the count. -/
def report (r : Option (List (List Char))) : Outcome :=
  match r with
  | none => Outcome.impossible
  | some potential_answers =>
      if potential_answers.length = 1 then Outcome.unique potential_answers.headI
      else if potential_answers.length ≤ 12 then Outcome.ambiguous potential_answers
      else Outcome.tooMany potential_answers.length

/-- `impl TryFrom<char> for Cell`: both square glyphs parse as `Nop`, the
yellow square as `Partial`, the green square as `Match`, all else fails. -/
def cellFromChar (c : Char) : Option Cell :=
  if c = '⬛' ∨ c = '⬜' then some Cell.Nop
  else if c = '🟨' then some Cell.Partial
  else if c = '🟩' then some Cell.Match
  else none

/-- The per-line guess parser in `main`: a line is a `Guess` exactly when it
has five characters and each converts through `cellFromChar`; the result
array starts as `[Cell::Nop; 5]` and is overwritten index by index. -/
def parseGuessLine (l : List Char) : Option Guess :=
  if l.length ≠ 5 then none
  else
    match l.mapM cellFromChar with
    | some cells => some fun i => cells.getD i.val Cell.Nop
    | none => none

/-- The four glyphs `cellFromChar` accepts. -/
def feedbackGlyphs : List Char := ['⬛', '⬜', '🟨', '🟩']

/-- The feedback `🟩⬛⬛⬛⬛` that guessing "fluff" against "foggy" yields
(the example in the source's comments and tests). -/
def fluffGuess : Guess := ![Cell.Match, Cell.Nop, Cell.Nop, Cell.Nop, Cell.Nop]

/-- The answer word "foggy" of the duplicate-letter example. -/
def foggyWord : Word := !['f', 'o', 'g', 'g', 'y']

/-- The observation of the duplicate-letter example. -/
def fluffObs : Guess × Word := (fluffGuess, foggyWord)

/-- "fluff" as a dictionary word. -/
def fluffChars : List Char := ['f', 'l', 'u', 'f', 'f']

/-- "foggy" as a dictionary word. -/
def foggyChars : List Char := ['f', 'o', 'g', 'g', 'y']

/-- A feedback pattern with one `Partial` and a `Match` elsewhere, used to
exercise the `Partial` branch of `constraintFor` at a concrete input. -/
def crateGuess : Guess := ![Cell.Nop, Cell.Partial, Cell.Match, Cell.Nop, Cell.Nop]

/-- The answer word of the `Partial` example. -/
def crateWord : Word := !['c', 'r', 'a', 't', 'e']

/-- The `Partial` example as an observation. -/
def crateObs : Guess × Word := (crateGuess, crateWord)

/-- An answer word for the contradictory observations below. -/
def abcdeWord : Word := !['a', 'b', 'c', 'd', 'e']

/-- A single observation that empties position 1 (1-indexed): the lone
`Partial` at position 0 has every other position `Match`, so its allow-set
is empty. -/
def obsEmptyAt1 : Guess × Word :=
  (![Cell.Partial, Cell.Match, Cell.Match, Cell.Match, Cell.Match], abcdeWord)

/-- A single observation that empties position 2 (1-indexed) the same way. -/
def obsEmptyAt2 : Guess × Word :=
  (![Cell.Match, Cell.Partial, Cell.Match, Cell.Match, Cell.Match], abcdeWord)

/-- Thirteen 5-letter lowercase words: the smallest dictionary whose
no-observation outcome is `tooMany`. -/
def thirteenWords : List (List Char) :=
  List.replicate 13 ['a', 'b', 'c', 'd', 'e']

/-- Swapping the last two constraint applications yields the same set:
intersection and difference commute with each other over a fixed universe. -/
theorem applyConstraint_right_comm (s : Finset Char) (c1 c2 : Constraint) :
    applyConstraint (applyConstraint s c1) c2 = applyConstraint (applyConstraint s c2) c1 := by
  cases c1 <;> cases c2 <;>
    · simp only [applyConstraint]
      ext a
      simp only [Finset.mem_inter, Finset.mem_sdiff]
      tauto

/-- Folding a permuted constraint list resolves to the same set. -/
theorem resolve_perm {cs1 cs2 : List Constraint} (h : cs1.Perm cs2) :
    resolve cs1 = resolve cs2 :=
  @List.Perm.foldl_eq _ _ applyConstraint _ _ ⟨applyConstraint_right_comm⟩ h alphabet

/-- Permuting the observations leaves every position's resolved set unchanged. -/
theorem resolvedSet_perm {g1 g2 : List (Guess × Word)} (h : g1.Perm g2) (i : Fin 5) :
    resolvedSet g1 i = resolvedSet g2 i :=
  resolve_perm (h.map _)

/-- Each constraint application shrinks the state space. -/
theorem applyConstraint_subset (s : Finset Char) (c : Constraint) :
    applyConstraint s c ⊆ s := by
  cases c with
  | IsOneOf h => exact Finset.inter_subset_left
  | IsNoneOf h => exact Finset.sdiff_subset

/-- Resolving with one more trailing constraint is one more application. -/
theorem resolve_append_single (cs : List Constraint) (c : Constraint) :
    resolve (cs ++ [c]) = applyConstraint (resolve cs) c := by
  unfold resolve
  rw [List.foldl_append]
  rfl

/-- One more observation only shrinks each position's resolved set. -/
theorem resolvedSet_append_subset (guesses : List (Guess × Word)) (o : Guess × Word)
    (i : Fin 5) : resolvedSet (guesses ++ [o]) i ⊆ resolvedSet guesses i := by
  unfold resolvedSet positionConstraints
  rw [List.map_append, List.map_singleton, resolve_append_single]
  exact applyConstraint_subset _ _

/-- A word matching under smaller per-position sets matches under larger ones. -/
theorem wordMatches_subset_mono {s t : Fin 5 → Finset Char} (hsub : ∀ i, s i ⊆ t i)
    {w : List Char} (h : wordMatches s w = true) : wordMatches t w = true := by
  match w with
  | [c0, c1, c2, c3, c4] =>
      simp only [wordMatches, Bool.and_eq_true, decide_eq_true_eq] at h ⊢
      exact ⟨⟨⟨⟨hsub 0 h.1.1.1.1, hsub 1 h.1.1.1.2⟩, hsub 2 h.1.1.2⟩, hsub 3 h.1.2⟩, hsub 4 h.2⟩
  | [] => exact absurd h (by simp [wordMatches])
  | [_] => exact absurd h (by simp [wordMatches])
  | [_, _] => exact absurd h (by simp [wordMatches])
  | [_, _, _] => exact absurd h (by simp [wordMatches])
  | [_, _, _, _] => exact absurd h (by simp [wordMatches])
  | _ :: _ :: _ :: _ :: _ :: _ :: _ => exact absurd h (by simp [wordMatches])

/-- One more observation never grows the candidate list. -/
theorem candidates_append_le (valid_words answers : List (List Char))
    (guesses : List (Guess × Word)) (o : Guess × Word) :
    (candidates valid_words answers (guesses ++ [o])).length ≤
      (candidates valid_words answers guesses).length := by
  unfold candidates
  rw [← List.countP_eq_length_filter, ← List.countP_eq_length_filter]
  exact List.countP_mono_left fun w _ hw =>
    wordMatches_subset_mono (resolvedSet_append_subset guesses o) hw

/-- One more observation keeps an impossible observation set impossible. -/
theorem impossible_append (guesses : List (Guess × Word)) (o : Guess × Word)
    (h : impossible guesses = true) : impossible (guesses ++ [o]) = true := by
  unfold impossible at h ⊢
  rw [decide_eq_true_eq] at h ⊢
  obtain ⟨i, hi⟩ := h
  refine ⟨i, Finset.subset_empty.mp ?_⟩
  rw [← hi]
  exact resolvedSet_append_subset guesses o i

/-- A successful `solve` returns exactly the filtered dictionary. -/
theorem solve_eq_some (valid_words answers : List (List Char))
    (guesses : List (Guess × Word)) (ws : List (List Char))
    (h : solve valid_words answers guesses = some ws) :
    ws = candidates valid_words answers guesses := by
  unfold solve at h
  split at h
  · exact absurd h (by simp)
  · split at h
    · exact absurd h (by simp)
    · exact (Option.some.inj h).symm

/-- The anchored pattern matches exactly the length-5 words whose every
character is in its position's set. -/
theorem wordMatches_iff (allowed : Fin 5 → Finset Char) (w : List Char) :
    wordMatches allowed w = true ↔
      w.length = 5 ∧ ∀ i : Fin 5, w.getD i.val 'a' ∈ allowed i := by
  match w with
  | [c0, c1, c2, c3, c4] =>
      simp only [wordMatches, Bool.and_eq_true, decide_eq_true_eq]
      constructor
      · rintro ⟨⟨⟨⟨h0, h1⟩, h2⟩, h3⟩, h4⟩
        refine ⟨rfl, fun i => ?_⟩
        fin_cases i <;> assumption
      · rintro ⟨-, h⟩
        exact ⟨⟨⟨⟨h 0, h 1⟩, h 2⟩, h 3⟩, h 4⟩
  | [] => simp [wordMatches]
  | [_] => simp [wordMatches]
  | [_, _] => simp [wordMatches]
  | [_, _, _] => simp [wordMatches]
  | [_, _, _, _] => simp [wordMatches]
  | c0 :: c1 :: c2 :: c3 :: c4 :: c5 :: rest =>
      constructor
      · intro h
        exact absurd h (by simp [wordMatches])
      · rintro ⟨h, -⟩
        simp only [List.length_cons] at h
        omega

/-- Every accepted glyph list maps through `cellFromChar` successfully. -/
theorem mapM_cellFromChar_isSome {l : List Char}
    (h : ∀ d ∈ l, (cellFromChar d).isSome) :
    ∃ cells, l.mapM cellFromChar = some cells := by
  induction l with
  | nil => exact ⟨[], rfl⟩
  | cons d l ih =>
      obtain ⟨c, hc⟩ := Option.isSome_iff_exists.mp (h d (List.mem_cons_self d l))
      obtain ⟨cells, hcs⟩ := ih fun x hx => h x (List.mem_cons_of_mem d hx)
      refine ⟨c :: cells, ?_⟩
      rw [List.mapM_cons, hc, hcs]
      rfl

/-- C1: for an observation whose feedback at position `i` is `Nop`, the
constraint emitted at `i` is a `ForbiddenSet` (`IsNoneOf S`) where `S` holds
exactly the answer characters `chars j` over the positions `j` with
`guess j ≠ Match` — derived only from the answer's letters and the feedback
pattern, with `Match` positions contributing nothing — and position `i`
itself contributes (`chars i ∈ S`). -/
theorem nopCell_forbidden_set (guess : Guess) (chars : Word) (i : Fin 5)
    (h : guess i = Cell.Nop) :
    ∃ S : Finset Char, constraintFor guess chars i = Constraint.IsNoneOf S ∧
      (∀ c : Char, c ∈ S ↔ ∃ j : Fin 5, guess j ≠ Cell.Match ∧ chars j = c) ∧
      chars i ∈ S := by
  have e : constraintFor guess chars i =
      Constraint.IsNoneOf ((Finset.univ.filter fun j => guess j ≠ Cell.Match).image chars) := by
    unfold constraintFor
    rw [h]
  refine ⟨_, e, fun c => ?_, ?_⟩
  · simp [Finset.mem_image, Finset.mem_filter]
  · simp only [Finset.mem_image, Finset.mem_filter, Finset.mem_univ, true_and]
    exact ⟨i, by rw [h]; simp, rfl⟩

/-- Witness for C1: the `Nop` at position 1 of the "fluff"-against-"foggy"
feedback forbids exactly the answer characters at non-`Match` positions. -/
theorem nopCell_forbidden_set_witness :
    ∃ S : Finset Char, constraintFor fluffGuess foggyWord 1 = Constraint.IsNoneOf S ∧
      (∀ c : Char, c ∈ S ↔ ∃ j : Fin 5, fluffGuess j ≠ Cell.Match ∧ foggyWord j = c) ∧
      foggyWord 1 ∈ S :=
  nopCell_forbidden_set fluffGuess foggyWord 1 (by decide)

/-- C2: for an observation whose feedback at position `i` is `Partial`, the
constraint emitted at `i` is an `AllowedSet` (`IsOneOf S`) where `S` holds
exactly the answer characters `chars j` over the positions `j ≠ i` with
`guess j ≠ Match`. -/
theorem partialCell_allowed_set (guess : Guess) (chars : Word) (i : Fin 5)
    (h : guess i = Cell.Partial) :
    ∃ S : Finset Char, constraintFor guess chars i = Constraint.IsOneOf S ∧
      ∀ c : Char, c ∈ S ↔ ∃ j : Fin 5, j ≠ i ∧ guess j ≠ Cell.Match ∧ chars j = c := by
  have e : constraintFor guess chars i =
      Constraint.IsOneOf
        ((Finset.univ.filter fun j => guess j ≠ Cell.Match ∧ j ≠ i).image chars) := by
    unfold constraintFor
    rw [h]
  refine ⟨_, e, fun c => ?_⟩
  constructor
  · intro hc
    obtain ⟨j, hj, rfl⟩ := Finset.mem_image.mp hc
    obtain ⟨hjm, hji⟩ := (Finset.mem_filter.mp hj).2
    exact ⟨j, hji, hjm, rfl⟩
  · rintro ⟨j, hji, hjm, rfl⟩
    exact Finset.mem_image.mpr ⟨j, Finset.mem_filter.mpr ⟨Finset.mem_univ j, hjm, hji⟩, rfl⟩

/-- Witness for C2: the `Partial` at position 1 of the `crate` example allows
exactly the answer characters at other non-`Match` positions. -/
theorem partialCell_allowed_set_witness :
    ∃ S : Finset Char, constraintFor crateGuess crateWord 1 = Constraint.IsOneOf S ∧
      ∀ c : Char, c ∈ S ↔ ∃ j : Fin 5, j ≠ 1 ∧ crateGuess j ≠ Cell.Match ∧ crateWord j = c :=
  partialCell_allowed_set crateGuess crateWord 1 (by decide)

/-- C3: permuting the observation sequence changes neither any position's
resolved set (the fold's intersections and differences commute over the fixed
universe) nor `solve`'s result nor the reported outcome. -/
theorem solve_order_independent (valid_words answers : List (List Char))
    (g1 g2 : List (Guess × Word)) (h : g1.Perm g2) :
    (∀ i : Fin 5, resolvedSet g1 i = resolvedSet g2 i) ∧
      solve valid_words answers g1 = solve valid_words answers g2 ∧
      report (solve valid_words answers g1) = report (solve valid_words answers g2) := by
  have hr : resolvedSet g1 = resolvedSet g2 := funext (resolvedSet_perm h)
  have hs : solve valid_words answers g1 = solve valid_words answers g2 := by
    simp only [solve, impossible, candidates, hr]
  exact ⟨fun i => congrFun hr i, hs, by rw [hs]⟩

/-- Witness for C3: swapping two concrete observations leaves the resolved
sets, the `solve` result and the report unchanged. -/
theorem solve_order_independent_witness :
    (∀ i : Fin 5, resolvedSet [fluffObs, crateObs] i = resolvedSet [crateObs, fluffObs] i) ∧
      solve [fluffChars] [foggyChars] [fluffObs, crateObs] =
        solve [fluffChars] [foggyChars] [crateObs, fluffObs] ∧
      report (solve [fluffChars] [foggyChars] [fluffObs, crateObs]) =
        report (solve [fluffChars] [foggyChars] [crateObs, fluffObs]) :=
  solve_order_independent [fluffChars] [foggyChars] [fluffObs, crateObs] [crateObs, fluffObs]
    (List.Perm.swap crateObs fluffObs [])

/-- C4 counterexample: two observation sets that are impossible at different
positions (1 and 2, 1-indexed, as `solve` prints them) produce identical
`solve` return values, so the caller cannot recover the offending position
from the outcome — `solve` returns a bare `Option`, not a tagged
`Impossible(position)`. -/
theorem solve_outcome_not_tagged :
    solve [fluffChars] [foggyChars] [obsEmptyAt1] =
      solve [fluffChars] [foggyChars] [obsEmptyAt2] ∧
    emptyLetterPositions [obsEmptyAt1] = [1] ∧
    emptyLetterPositions [obsEmptyAt2] = [2] := by decide

/-- C4 (amended): `solve` returns `none` exactly when the report is the
impossible outcome (covering both the empty-position and the zero-match
case), and on `some ws` the caller distinguishes unique (length 1),
ambiguous (length 2–12) and too-many (length ≥ 13) outcomes from the list
itself; the offending position of an impossible outcome is not carried. -/
theorem solve_outcome_option_report (valid_words answers : List (List Char))
    (guesses : List (Guess × Word)) :
    (solve valid_words answers guesses = none ↔
      report (solve valid_words answers guesses) = Outcome.impossible) ∧
    (∀ ws, solve valid_words answers guesses = some ws →
      (ws.length = 1 → report (solve valid_words answers guesses) = Outcome.unique ws.headI) ∧
      (2 ≤ ws.length → ws.length ≤ 12 →
        report (solve valid_words answers guesses) = Outcome.ambiguous ws) ∧
      (13 ≤ ws.length →
        report (solve valid_words answers guesses) = Outcome.tooMany ws.length)) := by
  constructor
  · cases hs : solve valid_words answers guesses with
    | none => simp [report]
    | some ws =>
        simp only [report]
        constructor
        · intro h
          exact absurd h (by simp)
        · intro h
          split at h
          · exact absurd h (by simp)
          · split at h
            · exact absurd h (by simp)
            · exact absurd h (by simp)
  · intro ws hs
    refine ⟨fun h1 => ?_, fun h2 h12 => ?_, fun h13 => ?_⟩
    · simp [report, hs, h1]
    · have : ¬ ws.length = 1 := by omega
      simp [report, hs, this, h12]
    · have h1 : ¬ ws.length = 1 := by omega
      have h12 : ¬ ws.length ≤ 12 := by omega
      simp [report, hs, h1, h12]

/-- C5 counterexample: for the observation `🟩⬛⬛⬛⬛` against "foggy",
the word "foggy" itself fails the derived constraints (its 'o' is in
position 2's forbidden set) and is removed from the candidate list by
`solve` even though it is in the dictionary. -/
theorem foggy_eliminated_cx :
    wordMatches (resolvedSet [fluffObs]) foggyChars = false ∧
    foggyChars ∈ ([fluffChars] ++ [foggyChars] : List (List Char)) ∧
    solve [fluffChars] [foggyChars] [fluffObs] = some [fluffChars] := by decide

/-- C5 (amended): for the observation `🟩⬛⬛⬛⬛` against "foggy", the
guessed word "fluff" satisfies every derived constraint (the duplicate-letter
rule keeps the `Match`-covered 'f' out of the forbidden sets) and is never
removed: whenever it is in the dictionary, `solve` succeeds and keeps it. -/
theorem fluff_not_eliminated (valid_words answers : List (List Char))
    (h : fluffChars ∈ valid_words ++ answers) :
    wordMatches (resolvedSet [fluffObs]) fluffChars = true ∧
    ∃ ws, solve valid_words answers [fluffObs] = some ws ∧ fluffChars ∈ ws := by
  have hm : wordMatches (resolvedSet [fluffObs]) fluffChars = true := by decide
  have himp : impossible [fluffObs] = false := by decide
  have hc : fluffChars ∈ candidates valid_words answers [fluffObs] :=
    List.mem_filter.mpr ⟨h, hm⟩
  have hne : ¬ (candidates valid_words answers [fluffObs]).length = 0 := by
    intro h0
    rw [List.length_eq_zero] at h0
    rw [h0] at hc
    exact absurd hc (List.not_mem_nil _)
  refine ⟨hm, candidates valid_words answers [fluffObs], ?_, hc⟩
  simp [solve, himp, hne]

/-- Witness for C5 (amended): with the two-word dictionary
`fluff`, `foggy`, the observation keeps "fluff". -/
theorem fluff_not_eliminated_witness :
    wordMatches (resolvedSet [fluffObs]) fluffChars = true ∧
    ∃ ws, solve [fluffChars] [foggyChars] [fluffObs] = some ws ∧ fluffChars ∈ ws :=
  fluff_not_eliminated [fluffChars] [foggyChars] (by decide)

/-- C6: appending one observation to a sequence on which `solve` succeeded
never increases the candidate count, and appending one to a sequence on
which `solve` returned `none` (impossible) leaves it `none`. -/
theorem monotonic_narrowing (valid_words answers : List (List Char))
    (guesses : List (Guess × Word)) (o : Guess × Word) :
    (∀ ws ws', solve valid_words answers guesses = some ws →
      solve valid_words answers (guesses ++ [o]) = some ws' →
      ws'.length ≤ ws.length) ∧
    (solve valid_words answers guesses = none →
      solve valid_words answers (guesses ++ [o]) = none) := by
  constructor
  · intro ws ws' hs hs'
    rw [solve_eq_some _ _ _ _ hs, solve_eq_some _ _ _ _ hs']
    exact candidates_append_le valid_words answers guesses o
  · intro h
    unfold solve at h ⊢
    split at h
    · rename_i himp
      rw [impossible_append guesses o himp]
      simp
    · split at h
      · rename_i hlen
        split
        · rfl
        · have : (candidates valid_words answers (guesses ++ [o])).length = 0 :=
            Nat.le_zero.mp (hlen ▸ candidates_append_le valid_words answers guesses o)
          rw [if_pos this]
      · exact absurd h (by simp)

/-- C7: with no observations every position resolves to the full alphabet,
and on a dictionary of 5-letter lowercase words with at least 13 entries
`solve []` passes the whole dictionary through and the report is
`tooMany` of the combined dictionary size — never impossible. -/
theorem solve_no_observations (valid_words answers : List (List Char))
    (h5 : ∀ w ∈ valid_words ++ answers, w.length = 5 ∧ ∀ c ∈ w, c ∈ alphabet)
    (hbig : 13 ≤ valid_words.length + answers.length) :
    (∀ i : Fin 5, resolvedSet [] i = alphabet) ∧
    solve valid_words answers [] = some (valid_words ++ answers) ∧
    report (solve valid_words answers []) =
      Outcome.tooMany (valid_words.length + answers.length) := by
  have hres : ∀ i : Fin 5, resolvedSet ([] : List (Guess × Word)) i = alphabet :=
    fun _ => rfl
  have hall : ∀ w ∈ valid_words ++ answers,
      wordMatches (resolvedSet []) w = true := by
    intro w hw
    obtain ⟨hl, hc⟩ := h5 w hw
    rw [wordMatches_iff]
    refine ⟨hl, fun i => ?_⟩
    rw [hres i]
    have hlt : i.val < w.length := by rw [hl]; exact i.isLt
    rw [List.getD_eq_getElem w 'a' hlt]
    exact hc _ (List.getElem_mem hlt)
  have hcand : candidates valid_words answers [] = valid_words ++ answers :=
    List.filter_eq_self.mpr hall
  have himp : impossible ([] : List (Guess × Word)) = false := by decide
  have hlen : (valid_words ++ answers).length = valid_words.length + answers.length :=
    List.length_append _ _
  have hne : ¬ (candidates valid_words answers []).length = 0 := by
    rw [hcand, hlen]
    omega
  have hs : solve valid_words answers [] = some (valid_words ++ answers) := by
    rw [solve, himp]
    simp only [Bool.false_eq_true, if_false]
    rw [if_neg hne, hcand]
  refine ⟨hres, hs, ?_⟩
  rw [hs, report]
  have h1 : ¬ (valid_words ++ answers).length = 1 := by rw [hlen]; omega
  have h12 : ¬ (valid_words ++ answers).length ≤ 12 := by rw [hlen]; omega
  rw [if_neg h1, if_neg h12, hlen]

/-- Witness for C7: a 13-word dictionary passes through whole. -/
theorem solve_no_observations_witness :
    (∀ i : Fin 5, resolvedSet [] i = alphabet) ∧
    solve thirteenWords [] [] = some (thirteenWords ++ []) ∧
    report (solve thirteenWords [] []) =
      Outcome.tooMany (thirteenWords.length + ([] : List (List Char)).length) :=
  solve_no_observations thirteenWords [] (by decide) (by decide)

/-- C8: a word of the combined dictionary is a candidate exactly when it has
exactly 5 characters and each character is a member of its position's
resolved allowed set (the pattern is anchored: no other length matches). -/
theorem candidate_membership (valid_words answers : List (List Char))
    (guesses : List (Guess × Word)) (w : List Char) :
    w ∈ candidates valid_words answers guesses ↔
      w ∈ valid_words ++ answers ∧ w.length = 5 ∧
        ∀ i : Fin 5, w.getD i.val 'a' ∈ resolvedSet guesses i := by
  unfold candidates
  rw [List.mem_filter, wordMatches_iff]

/-- C9: `cellFromChar` maps both the dark and the light square to `Nop`, the
yellow square to `Partial`, the green square to `Match`, and rejects every
other character; hence any 5-character line drawn from the four glyphs
parses as a `Guess`. -/
theorem cell_glyph_parsing (c : Char) (l : List Char) :
    (cellFromChar '⬛' = some Cell.Nop ∧ cellFromChar '⬜' = some Cell.Nop ∧
      cellFromChar '🟨' = some Cell.Partial ∧ cellFromChar '🟩' = some Cell.Match) ∧
    (c ∉ feedbackGlyphs → cellFromChar c = none) ∧
    (l.length = 5 → (∀ d ∈ l, d ∈ feedbackGlyphs) →
      ∃ g : Guess, parseGuessLine l = some g) := by
  refine ⟨⟨by decide, by decide, by decide, by decide⟩, ?_, ?_⟩
  · intro hc
    simp only [feedbackGlyphs, List.mem_cons, List.not_mem_nil, or_false, not_or] at hc
    obtain ⟨h1, h2, h3, h4⟩ := hc
    rw [cellFromChar, if_neg (by tauto), if_neg h3, if_neg h4]
  · intro hlen hglyph
    have hsome : ∀ d ∈ l, (cellFromChar d).isSome := by
      intro d hd
      have := hglyph d hd
      simp only [feedbackGlyphs, List.mem_cons, List.not_mem_nil, or_false] at this
      rcases this with rfl | rfl | rfl | rfl <;> decide
    obtain ⟨cells, hcells⟩ := mapM_cellFromChar_isSome hsome
    refine ⟨fun i => cells.getD i.val Cell.Nop, ?_⟩
    rw [parseGuessLine, if_neg (by omega), hcells]

/-- C10: the candidate list is the filtered `valid_words` followed by the
filtered `answers` with no deduplication: a matching word occurs in it as
often as in both lists together, so one present in both contributes at
least twice to the count the reporting thresholds use. -/
theorem candidates_no_dedup (valid_words answers : List (List Char))
    (guesses : List (Guess × Word)) (w : List Char) :
    candidates valid_words answers guesses =
      valid_words.filter (wordMatches (resolvedSet guesses)) ++
        answers.filter (wordMatches (resolvedSet guesses)) ∧
    (wordMatches (resolvedSet guesses) w = true →
      (candidates valid_words answers guesses).count w =
        valid_words.count w + answers.count w) ∧
    (wordMatches (resolvedSet guesses) w = true → w ∈ valid_words → w ∈ answers →
      2 ≤ (candidates valid_words answers guesses).count w) := by
  have hsplit : candidates valid_words answers guesses =
      valid_words.filter (wordMatches (resolvedSet guesses)) ++
        answers.filter (wordMatches (resolvedSet guesses)) := by
    unfold candidates
    exact List.filter_append _ _
  have hcount : wordMatches (resolvedSet guesses) w = true →
      (candidates valid_words answers guesses).count w =
        valid_words.count w + answers.count w := by
    intro hm
    rw [hsplit, List.count_append, List.count_filter hm, List.count_filter hm]
  refine ⟨hsplit, hcount, fun hm hv ha => ?_⟩
  rw [hcount hm]
  have h1 : 0 < valid_words.count w := List.count_pos_iff.mpr hv
  have h2 : 0 < answers.count w := List.count_pos_iff.mpr ha
  omega

end Wordle
